import Mathlib

/- Verification development for the kernel-PCA anomaly detector (Kpca.py).

   Modelling conventions:
   - python float arithmetic is modelled by exact real arithmetic (ℝ);
   - numpy 2-D arrays are lists of rows (`List (List ℝ)`), except the
     double-centering loop in `fit`, which indexes a square array
     elementwise and is modelled as a function `Fin n → Fin n → ℝ`;
   - external library primitives (the symmetric eigensolver `eigh`, the
     uniform permutation generator `np.random.permutation`, `np.quantile`)
     are out-of-scope collaborators: their outputs are taken as inputs of
     the embedded functions, or modelled from their documented behaviour;
   - python exceptions are modelled with `Except PyErr`. -/

/-- Dot product of two rows, the scalar `u . v`. -/
def dot (u v : List ℝ) : ℝ := (List.zipWith (fun a b => a * b) u v).sum

/-- Squared euclidean norm of a row: one entry of `np.diag(X.dot(X.T))`. -/
def sqnorm (u : List ℝ) : ℝ := dot u u

/-- One entry of the kernel matrix built by `kPCA.gramMatrix` (Kpca.py
lines 118-125, RBF branch): the squared distance is computed through the
identity `a + b - 2 a.b` and then `exp(-gamma * sqrd_dist)` is applied. -/
noncomputable def rbf (gamma : ℝ) (s x : List ℝ) : ℝ :=
  Real.exp (-(gamma * (sqnorm s + sqnorm x - 2 * dot s x)))

/-- `kPCA.gramMatrix(X, X_S)` (Kpca.py lines 103-130): the result has one
row per row of `X_S` (the second argument) and one column per row of `X`
(the first argument); entry `[i][j]` pairs `X_S[i]` with `X[j]`. -/
noncomputable def gramMatrix (gamma : ℝ) (X X_S : List (List ℝ)) : List (List ℝ) :=
  X_S.map (fun s => X.map (fun x => rbf gamma s x))

theorem dot_cons (a b : ℝ) (u v : List ℝ) :
    dot (a :: u) (b :: v) = a * b + dot u v := rfl

theorem sqnorm_cons (a : ℝ) (u : List ℝ) :
    sqnorm (a :: u) = a * a + sqnorm u := rfl

/-- The polarization identity behind `gramMatrix`'s distance computation:
for rows of equal length, `|u|^2 + |v|^2 - 2 u.v = |u - v|^2`. -/
theorem sqdist_eq (u : List ℝ) : ∀ v : List ℝ, u.length = v.length →
    sqnorm u + sqnorm v - 2 * dot u v
      = sqnorm (List.zipWith (fun a b => a - b) u v) := by
  induction u with
  | nil =>
    intro v hv
    have hv0 : v = [] := List.length_eq_zero.mp hv.symm
    subst hv0
    simp [sqnorm, dot]
  | cons a u ih =>
    intro v hv
    cases v with
    | nil => simp at hv
    | cons b w =>
      have hw : u.length = w.length := by simpa using hv
      have hrec := ih w hw
      simp only [List.zipWith_cons_cons, sqnorm_cons, dot_cons]
      rw [← hrec]
      ring

/-- C6 counterexample: with `A` having one row and `B` two rows,
`gramMatrix(A, B)` has 2 rows, not 1 — the FIRST argument does not index
the rows of the result. -/
theorem gramMatrix_first_arg_rows_false :
    ¬ (gramMatrix (1 / 2) [[0]] [[(0 : ℝ)], [0]]).length = 1 := by
  simp [gramMatrix]

/-- C6 (amended): `gramMatrix(A, B)` returns a `m₂ × m₁` matrix whose
entry `[i][j]` is the RBF kernel value `exp(-gamma * |B[i] - A[j]|^2)`:
the SECOND argument indexes the rows of the result and the first indexes
its columns. -/
theorem gramMatrix_shape_entries (gamma : ℝ) (A B : List (List ℝ)) (i j : ℕ)
    (hi : i < B.length) (hj : j < A.length)
    (hlen : (B.getD i []).length = (A.getD j []).length) :
    (gramMatrix gamma A B).length = B.length ∧
    ((gramMatrix gamma A B).getD i []).length = A.length ∧
    ((gramMatrix gamma A B).getD i []).getD j 0
      = Real.exp (-(gamma * sqnorm
          (List.zipWith (fun a b => a - b) (B.getD i []) (A.getD j [])))) := by
  have hlenG : (gramMatrix gamma A B).length = B.length := by
    simp [gramMatrix]
  have hiG : i < (gramMatrix gamma A B).length := by rw [hlenG]; exact hi
  have hrow : (gramMatrix gamma A B).getD i [] = A.map (fun x => rbf gamma (B.getD i []) x) := by
    rw [List.getD_eq_getElem _ _ hiG, List.getD_eq_getElem _ _ hi]
    simp [gramMatrix]
  refine ⟨hlenG, ?_, ?_⟩
  · rw [hrow]; simp
  · have hjr : j < (A.map (fun x => rbf gamma (B.getD i []) x)).length := by
      simpa using hj
    rw [List.getD_eq_getElem A [] hj] at hlen
    rw [hrow, List.getD_eq_getElem _ _ hjr, List.getD_eq_getElem _ _ hj]
    simp only [List.getElem_map]
    rw [rbf, ← sqdist_eq _ _ hlen]

/-- C6 witness: the amended statement instantiated at
`A = [[3]]`, `B = [[0],[1]]`, `i = 1`, `j = 0`. -/
theorem gramMatrix_shape_entries_witness :
    ((1 : ℕ) < 2 ∧ (0 : ℕ) < 1 ∧
      (([[(0 : ℝ)], [1]].getD 1 []).length = ([[(3 : ℝ)]].getD 0 []).length)) ∧
    ((gramMatrix (1 / 2) [[(3 : ℝ)]] [[(0 : ℝ)], [1]]).length = 2 ∧
      ((gramMatrix (1 / 2) [[(3 : ℝ)]] [[(0 : ℝ)], [1]]).getD 1 []).length = 1 ∧
      ((gramMatrix (1 / 2) [[(3 : ℝ)]] [[(0 : ℝ)], [1]]).getD 1 []).getD 0 0
        = Real.exp (-((1 / 2) * sqnorm
            (List.zipWith (fun a b => a - b)
              ([[(0 : ℝ)], [1]].getD 1 []) ([[(3 : ℝ)]].getD 0 []))))) := by
  have h := gramMatrix_shape_entries (1 / 2) [[(3 : ℝ)]] [[(0 : ℝ)], [1]] 1 0
    (by decide) (by decide) (by simp)
  exact ⟨⟨by decide, by decide, by simp⟩, h⟩

/-- The blocking loop `for block_i in range(0, n_samples, batch_size)` of
`kPCA.calc_reconstructionErrors` (Kpca.py line 197): split a list of rows
into consecutive blocks, `X[block_i : block_i + batch_size]`. For
`bs >= 1` this agrees with the python loop; python rejects `bs = 0`. -/
def chunks (bs : ℕ) : List α → List (List α)
  | [] => []
  | x :: xs => (x :: xs.take (bs - 1)) :: chunks bs (xs.drop (bs - 1))
termination_by l => l.length
decreasing_by simp only [List.length_cons, List.length_drop]; omega

theorem chunks_flatten (bs : ℕ) : (l : List α) → (chunks bs l).flatten = l
  | [] => by simp [chunks]
  | x :: xs => by
    rw [chunks]
    simp only [List.flatten_cons, List.cons_append, List.cons.injEq, true_and]
    rw [chunks_flatten bs (xs.drop (bs - 1))]
    exact List.take_append_drop _ xs
termination_by l => l.length
decreasing_by simp only [List.length_cons, List.length_drop]; omega

/-- The column of `k_L = gramMatrix(X_block, X_S)` that belongs to one
query row `x`: `k_L[:, row] = [rbf(X_S[0], x), ..., rbf(X_S[n_sub-1], x)]`
(Kpca.py line 206 together with the layout of `gramMatrix`). -/
noncomputable def kcol (gamma : ℝ) (X_S : List (List ℝ)) (x : List ℝ) : List ℝ :=
  X_S.map (fun s => rbf gamma s x)

/-- One row of `f_L` (Kpca.py lines 209-211), written per query row `x` and
per alpha column:
`f_L[row, k] = (k_L.T @ alphs)[row, k] - sumalphs[k] * (sum(k_L, 0)[row]/n_sub - Ksum) - (Krow @ alphs)[k]`.
`alphsT` is the list of columns of `alphs`, and `sumalphs` the per-column
sums `ones(n_sub) @ alphs` (line 192). -/
noncomputable def f_row (gamma : ℝ) (X_S : List (List ℝ)) (Krow : List ℝ) (Ksum : ℝ)
    (alphsT : List (List ℝ)) (sumalphs : List ℝ) (x : List ℝ) : List ℝ :=
  let kL := kcol gamma X_S x
  List.zipWith
    (fun acol sa => dot kL acol - sa * (kL.sum / X_S.length - Ksum) - dot Krow acol)
    alphsT sumalphs

/-- One entry of `errs_block` (Kpca.py lines 214-215), per query row `x`:
`(1 - 2*sum(k_L,0)[row]/n_sub + Ksum) - diag(f_L @ f_L.T)[row]`, the
diagonal entry being `sum_k f_L[row,k]^2`. -/
noncomputable def err_row (gamma : ℝ) (X_S : List (List ℝ)) (Krow : List ℝ) (Ksum : ℝ)
    (alphsT : List (List ℝ)) (sumalphs : List ℝ) (x : List ℝ) : ℝ :=
  (1 - 2 * (kcol gamma X_S x).sum / X_S.length + Ksum)
    - sqnorm (f_row gamma X_S Krow Ksum alphsT sumalphs x)

/-- `kPCA.calc_reconstructionErrors(X, X_S, K_mat, alphs)` (Kpca.py lines
165-226) with batch size `bs`: precompute `Krow = K_mat.sum(axis=0)/n_sub`
(column means, line 190), `Ksum = Krow.sum()/n_sub` (line 191) and
`sumalphs` (line 192); then process `X` in blocks of `bs` rows, writing
each block's errors into the output slots `block_i : block_i + bs`
(line 221), which assembles the per-block vectors in order. -/
noncomputable def calc_reconstructionErrors (gamma : ℝ) (bs : ℕ)
    (X X_S K_mat alphs : List (List ℝ)) : List ℝ :=
  let n_sub : ℝ := X_S.length
  let Krow := K_mat.transpose.map (fun c => c.sum / n_sub)
  let Ksum := Krow.sum / n_sub
  let alphsT := alphs.transpose
  let sumalphs := alphsT.map List.sum
  ((chunks bs X).map
    (fun X_block => X_block.map (err_row gamma X_S Krow Ksum alphsT sumalphs))).flatten

theorem calc_reconstructionErrors_eq_map (gamma : ℝ) (bs : ℕ)
    (X X_S K_mat alphs : List (List ℝ)) :
    calc_reconstructionErrors gamma bs X X_S K_mat alphs
      = X.map (err_row gamma X_S
          (K_mat.transpose.map (fun c => c.sum / (X_S.length : ℝ)))
          ((K_mat.transpose.map (fun c => c.sum / (X_S.length : ℝ))).sum / (X_S.length : ℝ))
          alphs.transpose (alphs.transpose.map List.sum)) := by
  unfold calc_reconstructionErrors
  rw [← List.map_flatten, chunks_flatten]

/-- C7: blocking is semantically transparent — over exact arithmetic the
reconstruction-error vector computed with `batch_size = 1` equals, entry
by entry and in row order, the one computed with `batch_size = n_samples`
(and indeed with any batch size). -/
theorem calc_reconstructionErrors_blocking_transparent (gamma : ℝ)
    (X X_S K_mat alphs : List (List ℝ)) :
    calc_reconstructionErrors gamma 1 X X_S K_mat alphs
      = calc_reconstructionErrors gamma X.length X X_S K_mat alphs := by
  rw [calc_reconstructionErrors_eq_map, calc_reconstructionErrors_eq_map]

/-- `Krow = K_mat.sum(axis = 0)/n_sub` as computed in `kPCA.fit` (Kpca.py
line 285): the column mean of the symmetrized gram matrix. -/
noncomputable def fitKrow (n : ℕ) (K : Fin n → Fin n → ℝ) (j : Fin n) : ℝ :=
  (∑ i, K i j) / n

/-- `Ksum = Krow.sum()/n_sub` in `kPCA.fit` (Kpca.py line 286). -/
noncomputable def fitKsum (n : ℕ) (K : Fin n → Fin n → ℝ) : ℝ :=
  (∑ j, fitKrow n K j) / n

/-- The elementwise double-centering loop of `kPCA.fit` (Kpca.py lines
287-291): `K_centered[i][j] = K_mat[i][j] - Krow[i] - Krow[j] + Ksum`. -/
noncomputable def K_centered (n : ℕ) (K : Fin n → Fin n → ℝ) (i j : Fin n) : ℝ :=
  K i j - fitKrow n K i - fitKrow n K j + fitKsum n K

/-- C8: for every symmetric square matrix `K`, the double-centered matrix
produced by `fit` has every row summing to zero and every column summing
to zero, exactly, over exact arithmetic. -/
theorem K_centered_rowcol_sums_zero (n : ℕ) (K : Fin n → Fin n → ℝ)
    (hsym : ∀ i j, K i j = K j i) :
    (∀ i, ∑ j, K_centered n K i j = 0) ∧ (∀ j, ∑ i, K_centered n K i j = 0) := by
  have key : ∀ i, ∑ j, K_centered n K i j = 0 := by
    intro i
    have hn : (n : ℝ) ≠ 0 := Nat.cast_ne_zero.mpr (Nat.pos_iff_ne_zero.mp i.pos)
    have hKrow_i : fitKrow n K i = (∑ j, K i j) / n := by
      unfold fitKrow
      congr 1
      exact Finset.sum_congr rfl (fun t _ => hsym t i)
    simp only [K_centered]
    rw [Finset.sum_add_distrib, Finset.sum_sub_distrib, Finset.sum_sub_distrib,
      Finset.sum_const, Finset.sum_const, Finset.card_univ, Fintype.card_fin,
      nsmul_eq_mul, nsmul_eq_mul, hKrow_i]
    unfold fitKsum
    field_simp
  have hKc_symm : ∀ i j, K_centered n K i j = K_centered n K j i := by
    intro i j
    unfold K_centered
    rw [hsym i j]
    ring
  refine ⟨key, fun j => ?_⟩
  rw [Finset.sum_congr rfl (fun i _ => hKc_symm i j)]
  exact key j

/-- A concrete symmetric 2 x 2 matrix used to witness C8. -/
noncomputable def Kex (i j : Fin 2) : ℝ := (i.val : ℝ) + (j.val : ℝ)

/-- C8 witness: the centering theorem applied to the concrete symmetric
matrix `Kex`, row 0. -/
theorem K_centered_rowcol_sums_zero_witness :
    (∀ i j : Fin 2, Kex i j = Kex j i) ∧ (∑ j, K_centered 2 Kex 0 j = 0) := by
  have hsym : ∀ i j : Fin 2, Kex i j = Kex j i := fun i j => add_comm _ _
  exact ⟨hsym, (K_centered_rowcol_sums_zero 2 Kex hsym).1 0⟩

/-- Instance attributes of the detector that `fit` creates; reading one
before `fit` is a python `AttributeError` naming the attribute. -/
inductive AttrName
  | model_X_S
  | model_K_mat
  | model_alphas
  | threshold_
  deriving DecidableEq

/-- Python exceptions relevant to the detector. `notFittedError` is the
explicit not-fitted error the specification demands for unfitted calls;
`recursionError` models exhausting python's recursion limit. -/
inductive PyErr
  | attributeError (a : AttrName)
  | typeError
  | recursionError
  | notFittedError
  deriving DecidableEq

/-- The `q` configuration parameter: a python int, or one of the sentinel
strings the constructor docstring accepts (Kpca.py lines 19-22). -/
inductive QVal
  | nat (n : ℕ)
  | same
  | auto
  deriving DecidableEq

/-- The mutable instance state of a `kPCA` object: configuration set by
`__init__`, and the model attributes that only `fit` assigns, absent
(`none`) until then. -/
structure KPCAState where
  sigma : ℝ
  gamma : ℝ
  order : ℕ
  q : QVal
  sample_pct : ℚ
  batch_size : ℕ
  contamination : ℝ
  model_X_S : Option (List (List ℝ)) := none
  model_K_mat : Option (List (List ℝ)) := none
  model_alphas : Option (List (List ℝ)) := none
  threshold_ : Option ℝ := none
  decision_scores_ : Option (List ℝ) := none
  labels_ : Option (List ℝ) := none

/-- `kPCA.__init__` (Kpca.py lines 71-81): stores the configuration and
`gamma = 1/2/sigma/sigma`; no model attribute is assigned. -/
noncomputable def mkKPCA (order : ℕ) (q : QVal) (sigma : ℝ) (sample_pct : ℚ)
    (batch_size : ℕ) (contamination : ℝ) : KPCAState :=
  { sigma := sigma
    gamma := 1 / 2 / sigma / sigma
    order := order
    q := q
    sample_pct := sample_pct
    batch_size := batch_size
    contamination := contamination }

/-- Reading `self.<attr>` in python: `AttributeError` when the attribute
was never assigned. -/
def getAttr (o : Option α) (a : AttrName) : Except PyErr α :=
  match o with
  | none => Except.error (PyErr.attributeError a)
  | some v => Except.ok v

/-- `kPCA.decision_function(X_test)` (Kpca.py lines 319-334): read the
stored model attributes in the order the call site names them (raising
`AttributeError` for the first absent one — there is no fitted-state
check) and return the reconstruction errors. The state is returned
alongside the scores since python methods may mutate `self`; this method
performs no attribute writes. `X_test` is taken as a matrix; the
single-row `ndim == 1` expansion (lines 329-330) is shape plumbing
outside this model. -/
noncomputable def decision_function (st : KPCAState) (X_test : List (List ℝ)) :
    Except PyErr (KPCAState × List ℝ) :=
  match getAttr st.model_X_S AttrName.model_X_S with
  | Except.error e => Except.error e
  | Except.ok xs =>
    match getAttr st.model_K_mat AttrName.model_K_mat with
    | Except.error e => Except.error e
    | Except.ok km =>
      match getAttr st.model_alphas AttrName.model_alphas with
      | Except.error e => Except.error e
      | Except.ok al =>
        Except.ok (st, calc_reconstructionErrors st.gamma st.batch_size X_test xs km al)

/-- `kPCA.predict(X_test, threshold)` (Kpca.py lines 337-360). After
resolving the threshold (line 352-353: the stored `threshold_` when the
argument is omitted), line 355 executes `scores = self.predict(X_test)`:
the method calls ITSELF instead of `decision_function`, so the recursion
has no base case. `fuel` models python's recursion limit; exhausting it
is `RecursionError`. -/
noncomputable def predictFuel :
    ℕ → KPCAState → List (List ℝ) → Option ℝ → Except PyErr (KPCAState × List ℝ)
  | 0, _, _, _ => Except.error PyErr.recursionError
  | fuel + 1, st, X_test, thr =>
    match (match thr with
           | some t => Except.ok t
           | none => getAttr st.threshold_ AttrName.threshold_) with
    | Except.error e => Except.error e
    | Except.ok t =>
      match predictFuel fuel st X_test none with
      | Except.error e => Except.error e
      | Except.ok (st1, scores) =>
        Except.ok (st1, scores.map (fun s => if s < t then (0 : ℝ) else 1))

/-- C1: the claim fails on the code — `predict` does not obtain its scores
from `decision_function`; it calls itself, and on every fitted state
(one with a stored `threshold_`), with or without an explicit threshold
argument, every amount of recursion fuel ends in `RecursionError`. No
label vector is ever produced. -/
theorem predict_always_recursion_error (fuel : ℕ) (st : KPCAState)
    (X_test : List (List ℝ)) (thr : Option ℝ) (t : ℝ)
    (hfit : st.threshold_ = some t) :
    predictFuel fuel st X_test thr = Except.error PyErr.recursionError := by
  induction fuel generalizing thr with
  | zero => rfl
  | succ fuel ih =>
    cases thr with
    | some t2 => simp only [predictFuel, ih none]
    | none => simp only [predictFuel, hfit, getAttr, ih none]

/-- A concrete fitted detector state used by witnesses: default
configuration, fitted on the one-point training set `[[0]]`. -/
noncomputable def fittedEx : KPCAState :=
  { mkKPCA 3 (QVal.nat 1) 1 1 500 (1 / 10) with
    model_X_S := some [[0]]
    model_K_mat := some [[1]]
    model_alphas := some [[1]]
    threshold_ := some 0
    decision_scores_ := some [0]
    labels_ := some [1] }

/-- C1 witness: on the concrete fitted state, `predict` with 3 units of
fuel (and the stored threshold) ends in `RecursionError`. -/
theorem predict_always_recursion_error_witness :
    fittedEx.threshold_ = some 0 ∧
    predictFuel 3 fittedEx [[(0 : ℝ)]] none = Except.error PyErr.recursionError := by
  have h : fittedEx.threshold_ = some 0 := rfl
  exact ⟨h, predict_always_recursion_error 3 fittedEx [[0]] none 0 h⟩

/-- C5: the claim fails on the code — on an unfitted detector (the state
`__init__` leaves behind) `decision_function` raises `AttributeError` for
`model_X_S`, and `predict` raises `AttributeError` for `threshold_`;
neither raises the explicit not-fitted error the specification demands
(`AttributeError` and `notFittedError` are distinct). -/
theorem unfitted_calls_attribute_error (o : ℕ) (qv : QVal) (sig : ℝ) (sp : ℚ)
    (bs : ℕ) (c : ℝ) (X_test : List (List ℝ)) (fuel : ℕ) :
    decision_function (mkKPCA o qv sig sp bs c) X_test
        = Except.error (PyErr.attributeError AttrName.model_X_S) ∧
    predictFuel (fuel + 1) (mkKPCA o qv sig sp bs c) X_test none
        = Except.error (PyErr.attributeError AttrName.threshold_) ∧
    (PyErr.attributeError AttrName.model_X_S ≠ PyErr.notFittedError ∧
      PyErr.attributeError AttrName.threshold_ ≠ PyErr.notFittedError) := by
  refine ⟨rfl, ?_, by simp, by simp⟩
  simp only [predictFuel, getAttr, mkKPCA]

/-- C10: `decision_function` never mutates the model state — whenever it
returns scores, the state it hands back is exactly the state it was
given, so `model_X_S`, `model_K_mat`, `model_alphas`, `threshold_`,
`decision_scores_` and `labels_` are all unchanged. -/
theorem decision_function_pure (st st2 : KPCAState) (X_test : List (List ℝ))
    (scores : List ℝ)
    (h : decision_function st X_test = Except.ok (st2, scores)) :
    st2 = st := by
  rcases hx : st.model_X_S with _ | xs <;>
    rcases hk : st.model_K_mat with _ | km <;>
      rcases ha : st.model_alphas with _ | al <;>
        simp [decision_function, getAttr, hx, hk, ha] at h
  exact h.1.symm

/-- C10 witness: on the concrete fitted state and the empty query matrix,
`decision_function` returns successfully with the state unchanged. -/
theorem decision_function_pure_witness :
    decision_function fittedEx [] = Except.ok (fittedEx, ([] : List ℝ)) ∧
    fittedEx = fittedEx := by
  have h : decision_function fittedEx [] = Except.ok (fittedEx, ([] : List ℝ)) := by
    simp only [decision_function, fittedEx, mkKPCA, getAttr,
      calc_reconstructionErrors, chunks, List.map_nil, List.flatten_nil]
  exact ⟨h, decision_function_pure fittedEx fittedEx [] [] h⟩

/-- `n_sub = int(sample_pct * X.shape[0])` (Kpca.py line 94); python's
`int()` truncates toward zero, which for a nonnegative product is the
floor. -/
def n_sub_val (sample_pct : ℚ) (n : ℕ) : ℕ := Int.toNat ⌊sample_pct * n⌋

/-- `kPCA.subsample_data(X)` (Kpca.py lines 84-100): `X_s = X[sample_idx]`.
The external generator call `np.random.permutation(n_sub)` is modelled by
taking `sample_idx` as an input, which the call site constrains to be a
permutation of `range(n_sub)` — of `[0, n_sub)`, not of the full row
range `[0, n_samples)`. -/
def subsample_data (X : List (List ℝ)) (sample_idx : List ℕ) : List (List ℝ) :=
  sample_idx.map (fun i => X.getD i [])

theorem getD_mem_take {α : Type} (d : α) :
    ∀ (l : List α) (i m : ℕ), i < m → i < l.length → l.getD i d ∈ l.take m
  | [], _, _, _, hil => absurd hil (by simp)
  | _ :: _, _, 0, him, _ => absurd him (by omega)
  | x :: xs, 0, m + 1, _, _ => by simp
  | x :: xs, i + 1, m + 1, him, hil => by
    simp only [List.getD_cons_succ, List.take_succ_cons]
    exact List.mem_cons_of_mem _
      (getD_mem_take d xs i m (by omega) (by simpa using hil))

/-- C2: the claim fails on the code — whatever permutation of
`range(n_sub)` the external generator returns, every row of the
subsample comes from the FIRST `n_sub` rows of `X`; rows at positions
`n_sub` and beyond can never appear. -/
theorem subsample_data_only_first_rows (X : List (List ℝ)) (p : ℚ) (hp : p ≤ 1)
    (sample_idx : List ℕ)
    (hperm : sample_idx.Perm (List.range (n_sub_val p X.length))) :
    ∀ row ∈ subsample_data X sample_idx, row ∈ X.take (n_sub_val p X.length) := by
  intro row hrow
  obtain ⟨i, hi_mem, rfl⟩ := List.mem_map.mp hrow
  have hi_lt : i < n_sub_val p X.length :=
    List.mem_range.mp (hperm.mem_iff.mp hi_mem)
  have hsub_le : n_sub_val p X.length ≤ X.length := by
    unfold n_sub_val
    refine Int.toNat_le.mpr ?_
    have h1 : p * (X.length : ℚ) ≤ (X.length : ℚ) := by
      calc p * (X.length : ℚ) ≤ 1 * (X.length : ℚ) :=
            mul_le_mul_of_nonneg_right hp (by positivity)
        _ = (X.length : ℚ) := one_mul _
    calc ⌊p * (X.length : ℚ)⌋ ≤ ⌊((X.length : ℕ) : ℚ)⌋ := Int.floor_le_floor h1
      _ = (X.length : ℤ) := Int.floor_natCast _
  exact getD_mem_take [] X i _ hi_lt (lt_of_lt_of_le hi_lt hsub_le)

/-- The concrete 4-row design matrix of the C2 witness. -/
noncomputable def X4 : List (List ℝ) := [[0], [1], [2], [3]]

/-- C2 witness: with `sample_pct = 1/2` on the 4-row matrix, `n_sub = 2`,
and for the concrete permutation `[1, 0]` of `range(2)` the subsample
stays within the first 2 rows. -/
theorem subsample_data_only_first_rows_witness :
    ((1 : ℚ) / 2 ≤ 1 ∧ [1, 0].Perm (List.range (n_sub_val (1 / 2) 4))) ∧
    (∀ row ∈ subsample_data X4 [1, 0], row ∈ X4.take (n_sub_val (1 / 2) 4)) := by
  have hp : (1 : ℚ) / 2 ≤ 1 := by norm_num
  have hn : n_sub_val (1 / 2) 4 = 2 := by
    norm_num [n_sub_val]
    rfl
  have hperm : [1, 0].Perm (List.range (n_sub_val (1 / 2) 4)) := by
    rw [hn]
    decide
  exact ⟨⟨hp, hperm⟩, subsample_data_only_first_rows X4 (1 / 2) hp [1, 0] hperm⟩

/-- `kPCA.eigenDecomp_gramMatrix(K_centered)` (Kpca.py lines 134-162),
with the external eigensolver output taken as input: `eigh` returns the
eigenvalues `w` ascending and the eigenvector columns as the matrix `v`
(here a list of rows). The code flips both (`flipud` on `w`, `fliplr` on
`v`, lines 151-152), slices `alphas = v[:, :numev]` and
`lambdas = w[:numev]` with `numev = self.q` taken verbatim from the
configuration (line 147), and rescales `alphas * squeeze(1/sqrt(lambdas))`
(line 158). A python string value of `q` (the default `'same'`, or
`'auto'`) reaches the slice unconverted and raises `TypeError`; the code
contains no mapping of `'same'` to `n_sub` nor of `'auto'` to
`d_features`, and no sign check on the retained eigenvalues. -/
noncomputable def eigenDecomp_gramMatrix (q : QVal) (w : List ℝ) (v : List (List ℝ)) :
    Except PyErr (List (List ℝ)) :=
  match q with
  | QVal.nat numev =>
    let wflip := w.reverse
    let vflip := v.map List.reverse
    let alphas := vflip.map (List.take numev)
    let lambdas := wflip.take numev
    Except.ok (alphas.map (fun arow =>
      List.zipWith (fun a lam => a * (1 / Real.sqrt lam)) arow lambdas))
  | QVal.same => Except.error PyErr.typeError
  | QVal.auto => Except.error PyErr.typeError

/-- C3: the claim fails on the code — with `q = 'same'` (the default) or
`q = 'auto'` the eigendecomposition step raises `TypeError` on the slice
`v[:, :numev]` for every eigensolver output; it never retains `n_sub`
(respectively `d_features`) columns. -/
theorem eigenDecomp_q_same_auto_type_error (w : List ℝ) (v : List (List ℝ)) :
    eigenDecomp_gramMatrix QVal.same w v = Except.error PyErr.typeError ∧
    eigenDecomp_gramMatrix QVal.auto w v = Except.error PyErr.typeError :=
  ⟨rfl, rfl⟩

/-- C4: the claim fails on the code — when the centered gram matrix is the
2 x 2 zero matrix (eigensolver output: eigenvalues `[0, 0]`, identity
eigenvectors) and `q = 1`, the retained eigenvalue is `0 <= 0`, yet the
step returns normally instead of raising a domain error: the rescaling
`1/sqrt(0)` is evaluated (in floating point it is `inf`, and the alphas
silently become `inf`/`nan` and flow on toward `labels_`). -/
theorem eigenDecomp_nonpos_eigenvalue_no_error :
    (eigenDecomp_gramMatrix (QVal.nat 1) [0, 0] [[1, 0], [0, 1]]).isOk = true := rfl

/-- Insertion into an ascending-sorted list: a helper for the modelled
`np.quantile`. -/
noncomputable def insertSorted (x : ℝ) : List ℝ → List ℝ
  | [] => [x]
  | y :: ys => if x ≤ y then x :: y :: ys else y :: insertSorted x ys

/-- Ascending insertion sort: a helper for the modelled `np.quantile`. -/
noncomputable def sortAsc (l : List ℝ) : List ℝ := l.foldr insertSorted []

/-- Modelled from the spec: `np.quantile(scores, p)` with its default
linear-interpolation method is an external numerical-library primitive
(spec section 1 lists quantile computation as out of scope; section 4.5
fixes the method to linear interpolation on sorted order). With
`h = p * (n - 1)` over the ascending-sorted scores, the result
interpolates between the sorted entries at `floor(h)` and the next
index (clipped to the last index). -/
noncomputable def npQuantile (scores : List ℝ) (p : ℝ) : ℝ :=
  let sorted := sortAsc scores
  let n := scores.length
  let h := p * ((n : ℝ) - 1)
  let i := Int.toNat ⌊h⌋
  let lo := sorted.getD i 0
  let hi := sorted.getD (min (i + 1) (n - 1)) 0
  lo + (h - (⌊h⌋ : ℝ)) * (hi - lo)

/-- `kPCA.threshold(scores, contamination)` (Kpca.py lines 228-246):
compute `threshold_ = np.quantile(scores, 1 - contamination)`, store it
on the instance (line 245), and return the labels built as `ones` with
`labels[scores < threshold_] = 0` (lines 242-243). -/
noncomputable def thresholdStep (st : KPCAState) (scores : List ℝ)
    (contamination : ℝ) : KPCAState × List ℝ :=
  let threshold_ := npQuantile scores (1 - contamination)
  let labels := scores.map (fun s => if s < threshold_ then (0 : ℝ) else 1)
  ({ st with threshold_ := some threshold_ }, labels)

/-- The tail of `kPCA.fit` (Kpca.py lines 309-313): store the training
reconstruction errors as `decision_scores_`, then
`self.labels_ = self.threshold(self.decision_scores_, self.contamination)`,
which also assigns `threshold_`. -/
noncomputable def fit_store_scores (st : KPCAState)
    (reconstruction_errs : List ℝ) : KPCAState :=
  let st1 := { st with decision_scores_ := some reconstruction_errs }
  let p := thresholdStep st1 reconstruction_errs st.contamination
  { p.1 with labels_ := some p.2 }

/-- C9: the thresholding step returns
`threshold = np.quantile(scores, 1 - contamination)` (linear
interpolation on sorted order) together with labels that are 1 exactly on
the scores `>= threshold` and 0 otherwise, and `fit` stores that
threshold as `threshold_`, those labels as `labels_`, and the training
scores as `decision_scores_`. -/
theorem threshold_fit_stores (st : KPCAState) (scores : List ℝ) :
    (fit_store_scores st scores).threshold_
        = some (npQuantile scores (1 - st.contamination)) ∧
    (fit_store_scores st scores).labels_
        = some (scores.map (fun s =>
            if npQuantile scores (1 - st.contamination) ≤ s then (1 : ℝ) else 0)) ∧
    (fit_store_scores st scores).decision_scores_ = some scores := by
  refine ⟨rfl, ?_, rfl⟩
  show some (scores.map (fun s =>
      if s < npQuantile scores (1 - st.contamination) then (0 : ℝ) else 1)) = _
  congr 1
  apply List.map_congr_left
  intro s _
  rcases lt_or_le s (npQuantile scores (1 - st.contamination)) with h | h
  · rw [if_pos h, if_neg (not_le.mpr h)]
  · rw [if_neg (not_lt.mpr h), if_pos h]
